import Mathlib

/-!
Shallow embedding of the pin layout engine of `src/extractor.ts`
(stm2kicad): data model, the three renderers (single-row `Sip`,
dual-row `Dip`, quad-flat `Qfp`), pin classification and symbol
assembly, together with theorems settling the specification claims.

Conventions of the embedding:
* JavaScript numbers are modelled as `ℚ` for geometry and as `ℕ` for
  pin positions, slot indices and unit numbers (the program only ever
  feeds non-negative integers into those places).
* `total_pins / 4` is `ℕ` division; the `QfpRenderer` constructor
  enforces `total_pins % 4 = 0`, under which it agrees with the
  JavaScript real division.
* Output lines are modelled as an inductive `Line` carrying the
  variable fields of each emitted text line; the literal tokens of the
  legacy format (`10 f`, the `50 50` text sizes, ...) are fixed by the
  constructor and carry no information.
* Renderer objects become explicit state records; the `set_pins` /
  `calc_geometry` methods become functions producing those records.
-/

/-- `Geometry` record of `extractor.ts` (all JS numbers). -/
structure Geometry where
  pin_spacing : ℚ
  pin_length : ℚ
  margin_qfp : ℚ
  width_sip : ℚ
  width_dip : ℚ
  margin_ip : ℚ
deriving DecidableEq

/-- STM32CubeMX pin type (`PinConfigType` enum: `Power`, `I/O`). -/
inductive PinConfigType
  | power
  | io
deriving DecidableEq

/-- Kicad electrical type (`PinElectricalType` enum). -/
inductive PinElectricalType
  | input
  | output
  | bidi
  | tristate
  | passive
  | unspecified
  | power_in
  | power_out
  | open_collector
  | open_emitter
  | not_connected
deriving DecidableEq

/-- Pin stub direction. The TS type is `'L' | 'T' | 'R' | 'D'`, but the
Qfp renderer indexes the string `'RULD'` and casts, so `U` also occurs
at runtime; we include it. -/
inductive Direction
  | L
  | T
  | R
  | D
  | U
deriving DecidableEq

/-- Input pin record (`Pin` interface), before classification: the
fields written by `load_cubefile`.  `elec_type`, `display_name` and the
owning block are produced by classification and modelled functionally
(see `classify`, `display_name`, `to_rpin`). -/
structure Pin where
  position : ℕ
  name : String
  config_type : PinConfigType
  label : Option String := none
  assigned : Bool
deriving DecidableEq

/-- Characters matched by the JavaScript regex class `\s`. -/
def is_js_space (c : Char) : Bool :=
  let n := c.toNat
  decide ((9 ≤ n ∧ n ≤ 13) ∨ n = 32 ∨ n = 160 ∨ n = 5760 ∨
    (8192 ≤ n ∧ n ≤ 8202) ∨ n = 8232 ∨ n = 8233 ∨ n = 8239 ∨
    n = 8287 ∨ n = 12288 ∨ n = 65279)

/-- JavaScript line terminators (the characters `.` does not match). -/
def is_js_line_term (c : Char) : Bool :=
  decide (c.toNat = 10 ∨ c.toNat = 13 ∨ c.toNat = 8232 ∨ c.toNat = 8233)

/-- Character-level model of `s.replace(/\s.*/, '')`: remove the first
whitespace character together with the following run of
non-line-terminator characters. -/
def strip_ws_rest : List Char → List Char
  | [] => []
  | c :: cs =>
    if is_js_space c then cs.dropWhile (fun d => !is_js_line_term d)
    else c :: strip_ws_rest cs

/-- `short_name` of `render_symbol`: `pin.name.replace(/\s.*/, '')`. -/
def short_name (s : String) : String :=
  ⟨strip_ws_rest s.data⟩

/-- Model of `s.replace(/\s/g, '_')`. -/
def underscore_ws (s : String) : String :=
  ⟨s.data.map (fun c => if is_js_space c then '_' else c)⟩

/-- JavaScript truthiness of the optional `label` field (`undefined`
and the empty string are falsy). -/
def label_truthy : Option String → Bool
  | none => false
  | some s => !(s == "")

/-- The `display_name` computed by `render_symbol`:
`(pin.label ? short_name + '/' + pin.label : pin.name).replace(/\s/g, '_')`. -/
def display_name (pin : Pin) : String :=
  underscore_ws
    (if label_truthy pin.label then short_name pin.name ++ "/" ++ pin.label.getD ""
     else pin.name)

/-- The four block roles of `render_symbol` (`BlockName` type). -/
inductive BlockName
  | io_block
  | power_block
  | config_block
  | unassigned_block
deriving DecidableEq

/-- Qfp layout mode (`QfpMode` enum). -/
inductive QfpMode
  | ACCURATE
  | COMPACT
  | CRUSHED
deriving DecidableEq

/-- The `io_style` option: `QfpMode | 'sip'`. -/
inductive IoStyle
  | sip
  | qfp (mode : QfpMode)
deriving DecidableEq

/-- The `Options` record of `extractor.ts`. -/
structure Options where
  io_style : IoStyle
  separate_config : Bool
  separate_power : Bool
  separate_unassigned : Bool
  drop_unassigned : Bool
  geometry : Geometry
deriving DecidableEq

/-- Classification of one pin, following the `if`/`else if` chain of
`render_symbol` verbatim: the result is the stamped electrical type and
the owning block role, or `none` when the pin is dropped. -/
def classify (options : Options) (pin : Pin) :
    Option (PinElectricalType × BlockName) :=
  if options.separate_power && pin.config_type == .power then
    some (.power_in, .power_block)
  else if options.separate_config && pin.config_type != .io then
    some (.bidi, .config_block)
  else if pin.assigned || (!options.separate_unassigned && !options.drop_unassigned) then
    some (.passive, .io_block)
  else if options.separate_unassigned && !options.drop_unassigned then
    some (.unspecified, .unassigned_block)
  else
    none

/-- First-match selection over a guarded rule list (used to state the
spec's "fixed priority order, stopping at the first matching rule"
reading of classification). -/
def first_match {α : Type} : List (Bool × α) → Option α
  | [] => none
  | (c, r) :: rest => if c then some r else first_match rest

/-- The classification rules exactly as the spec enumerates them
(each rule = its guard plus its outcome), evaluated by `first_match`. -/
def classify_by_rules (options : Options) (pin : Pin) :
    Option (PinElectricalType × BlockName) :=
  first_match
    [(options.separate_power && pin.config_type == .power,
        (.power_in, .power_block)),
     (options.separate_config && pin.config_type != .io,
        (.bidi, .config_block)),
     (pin.assigned || (!options.separate_unassigned && !options.drop_unassigned),
        (.passive, .io_block)),
     (options.separate_unassigned && !options.drop_unassigned,
        (.unspecified, .unassigned_block))]

/-- A pin as the renderers see it after classification: the fields of
`Pin` that rendering reads, plus the stamped `display_name` and
`elec_type`. -/
structure RPin where
  position : ℕ
  name : String
  label : Option String
  display_name : String
  elec_type : PinElectricalType
deriving DecidableEq

/-- `to_rpin pin et` is pin `pin` as mutated by classification with
electrical type `et`. -/
def to_rpin (pin : Pin) (et : PinElectricalType) : RPin :=
  { position := pin.position
    name := pin.name
    label := pin.label
    display_name := display_name pin
    elec_type := et }

/-- Secondary sort key of lodash `sortBy(pins, ['name', 'label'])`:
labels compared as strings, `undefined` ordered after any string. -/
def lodash_label_le : Option String → Option String → Prop
  | none, none => True
  | none, some _ => False
  | some _, none => True
  | some x, some y => x ≤ y

instance : (a b : Option String) → Decidable (lodash_label_le a b)
  | none, none => .isTrue trivial
  | none, some _ => .isFalse (fun h => h)
  | some _, none => .isTrue trivial
  | some x, some y => inferInstanceAs (Decidable (x ≤ y))

/-- The comparison implemented by `_.sortBy([...pins], ['name', 'label'])`:
by name, ties broken by label. -/
def pin_sort_le (a b : RPin) : Prop :=
  a.name < b.name ∨ (a.name = b.name ∧ lodash_label_le a.label b.label)

instance : DecidableRel pin_sort_le := fun a b =>
  inferInstanceAs
    (Decidable (a.name < b.name ∨ (a.name = b.name ∧ lodash_label_le a.label b.label)))

/-- Stable name/label sort shared by the Sip and Dip renderers. -/
def name_label_sort (pins : List RPin) : List RPin :=
  List.insertionSort pin_sort_le pins

/-- A computed pin position (`PinPosition` interface). -/
structure PinPosition where
  x : ℚ
  y : ℚ
  dir : Direction
deriving DecidableEq

/-- One emitted output line, keeping the variable fields of the
corresponding text line of `extractor.ts` (the fixed literal tokens of
the legacy format are implied by the constructor).  In `x_line`, `y`
holds the emitted value, i.e. the negation of the internal
y-coordinate. -/
inductive Line
  | header
  | def_line (name : String) (unit_count : ℕ)
  | f0_line
  | f1_line (name : String)
  | fplist_begin
  | fplist_entry (pat : String)
  | fplist_end
  | draw_line
  | s_line (half_width half_height : ℚ) (unit : ℕ)
  | x_line (display_name : String) (position : ℕ) (x y len : ℚ)
      (dir : Direction) (unit : ℕ) (elec_type : PinElectricalType)
  | enddraw_line
  | enddef_line
  | blank_line
deriving DecidableEq

/-- JavaScript truncation toward zero (`Math.trunc`, and the rounding
used by the `%` operator). -/
def js_trunc (x : ℚ) : ℤ :=
  if 0 ≤ x then ⌊x⌋ else ⌈x⌉

/-- The JavaScript remainder operator `%` on numbers:
`a % b = a - b * trunc(a / b)` (for the non-degenerate `b ≠ 0` case;
`b = 0` never occurs in the inputs we model). -/
def js_mod (a b : ℚ) : ℚ :=
  a - b * (js_trunc (a / b) : ℚ)

/-- Geometry state shared by the Sip and Dip renderer classes: the four
half-dimension fields plus the stored (sorted) pin list. -/
structure RowState where
  half_inner_width : ℚ
  half_inner_height : ℚ
  half_width : ℚ
  half_height : ℚ
  pins : List RPin
deriving DecidableEq

/-- `SipRenderer.calc_geometry` applied to an already-stored pin list. -/
def sip_calc_geometry (g : Geometry) (pins : List RPin) : RowState :=
  let half_inner_width := g.width_sip / 2
  let half_inner_height := ((pins.length : ℚ) - 1) * g.pin_spacing / 2
  { half_inner_width := half_inner_width
    half_inner_height := half_inner_height
    half_width := half_inner_width
    half_height := half_inner_height + g.pin_spacing * g.margin_ip
    pins := pins }

/-- `SipRenderer.set_pins`: sort by `(name, label)`, then recompute the
geometry. -/
def sip_set_pins (g : Geometry) (pins : List RPin) : RowState :=
  sip_calc_geometry g (name_label_sort pins)

/-- `SipRenderer.get_position`. -/
def sip_get_position (g : Geometry) (st : RowState) (index : ℕ) : PinPosition :=
  { x := st.half_width + g.pin_length
    y := -st.half_inner_height + g.pin_spacing * (index : ℚ)
    dir := .L }

/-- `SipRenderer.render_block` (or `DipRenderer.render_block`, which is
textually identical): one `S` rectangle line. -/
def row_render_block (st : RowState) (unit : ℕ) : List Line :=
  [.s_line st.half_width st.half_height unit]

/-- `SipRenderer.render_pins`: one `X` line per stored pin, in index
order; the emitted y is the negated internal y. -/
def sip_render_pins (g : Geometry) (st : RowState) (unit : ℕ) : List Line :=
  st.pins.enum.map (fun ip =>
    let position := sip_get_position g st ip.1
    Line.x_line ip.2.display_name ip.2.position position.x (-position.y)
      g.pin_length position.dir unit ip.2.elec_type)

/-- A full Sip render pass: `set_pins`, `render_block`, `render_pins`. -/
def sip_render (g : Geometry) (unit : ℕ) (pins : List RPin) : List Line :=
  let st := sip_set_pins g pins
  row_render_block st unit ++ sip_render_pins g st unit

/-- `DipRenderer.calc_geometry` applied to an already-stored pin list. -/
def dip_calc_geometry (g : Geometry) (pins : List RPin) : RowState :=
  let half_inner_width := g.width_dip / 2
  let half_inner_height :=
    ((⌈(pins.length : ℚ) / 2⌉ : ℚ) - 1) * g.pin_spacing / 2
  { half_inner_width := half_inner_width
    half_inner_height := half_inner_height
    half_width := half_inner_width
    half_height := half_inner_height + g.pin_spacing * g.margin_ip
    pins := pins }

/-- `DipRenderer.set_pins`. -/
def dip_set_pins (g : Geometry) (pins : List RPin) : RowState :=
  dip_calc_geometry g (name_label_sort pins)

/-- `DipRenderer.get_position`: `side = Math.floor(index / (len / 2))`,
`side_index = index % (len / 2)` (JS real division and remainder),
x-sign and direction char from indexing `[-1, +1]` and `'RL'` — the
out-of-range defaults are unreachable for `index < len`. -/
def dip_get_position (g : Geometry) (st : RowState) (index : ℕ) : PinPosition :=
  let len : ℚ := (st.pins.length : ℚ)
  let side : ℤ := ⌊(index : ℚ) / (len / 2)⌋
  let side_index : ℚ := js_mod (index : ℚ) (len / 2)
  let sign : ℚ := ([-1, 1] : List ℚ).getD side.toNat 0
  { x := sign * (st.half_width + g.pin_length)
    y := -st.half_inner_height + g.pin_spacing * side_index
    dir := ([Direction.R, Direction.L]).getD side.toNat .U }

/-- `DipRenderer.render_pins`. -/
def dip_render_pins (g : Geometry) (st : RowState) (unit : ℕ) : List Line :=
  st.pins.enum.map (fun ip =>
    let position := dip_get_position g st ip.1
    Line.x_line ip.2.display_name ip.2.position position.x (-position.y)
      g.pin_length position.dir unit ip.2.elec_type)

/-- A full Dip render pass. -/
def dip_render (g : Geometry) (unit : ℕ) (pins : List RPin) : List Line :=
  let st := dip_set_pins g pins
  row_render_block st unit ++ dip_render_pins g st unit

/-- A Qfp pin: `QfpPin extends Pin` with the computed `side` (the index
of the pin's group in the grouped side list) and `position_on_side`
(the slot assigned by the layout mode). -/
structure QfpRPin extends RPin where
  side : ℕ
  position_on_side : ℕ
deriving DecidableEq

/-- `QfpRenderer.position_pins_on_side`: per-side slot assignment for
the three layout modes (the `default` branch of the TS `switch` is
unreachable for the closed `QfpMode` enum). -/
def position_pins_on_side (mode : QfpMode) (total_pins : ℕ)
    (pins : List RPin) : List ℕ :=
  match mode with
  | .ACCURATE =>
    pins.map (fun pin => (pin.position - 1) % (total_pins / 4))
  | .COMPACT =>
    match pins with
    | [] => []
    | p0 :: _ =>
      (pins.foldl
        (fun acc pin =>
          (acc.1 ++ [acc.1.getLast?.getD 0 + (if pin.position = acc.2 then 1 else 2)],
           pin.position + 1))
        (([] : List ℕ), p0.position)).1
  | .CRUSHED =>
    pins.enum.map (fun ip => ip.1)

/-- Primary sort of `QfpRenderer.set_pins`: `sortBy(pin => pin.position)`. -/
def pos_sort_le (a b : RPin) : Prop :=
  a.position ≤ b.position

instance : DecidableRel pos_sort_le := fun a b =>
  inferInstanceAs (Decidable (a.position ≤ b.position))

/-- Stable position sort of `QfpRenderer.set_pins`. -/
def position_sort (pins : List RPin) : List RPin :=
  List.insertionSort pos_sort_le pins

/-- One step of lodash `groupBy` accumulation: append `p` to the group
keyed `key` if present, otherwise append a new group at the end. -/
def group_insert (key : ℕ) (p : RPin) :
    List (ℕ × List RPin) → List (ℕ × List RPin)
  | [] => [(key, [p])]
  | (k, g) :: rest =>
    if k = key then (k, g ++ [p]) :: rest
    else (k, g) :: group_insert key p rest

/-- Lodash `groupBy` with a numeric key. -/
def lodash_group_by (key : RPin → ℕ) (l : List RPin) :
    List (ℕ × List RPin) :=
  l.foldl (fun acc p => group_insert (key p) p acc) []

/-- `.values()` of a JS object with non-negative integer-like keys:
values in ascending key order. -/
def group_values (groups : List (ℕ × List RPin)) : List (List RPin) :=
  (List.insertionSort (fun a b => a.1 ≤ b.1) groups).map (fun kg => kg.2)

/-- The side key of `QfpRenderer.set_pins`:
`Math.floor((pin.position - 1) / (total_pins / 4))`. -/
def qfp_side_key (total_pins : ℕ) (pin : RPin) : ℕ :=
  (pin.position - 1) / (total_pins / 4)

/-- The grouped side lists of `QfpRenderer.set_pins`: sort by position,
group by the side key, take the group values in JS object key order. -/
def qfp_side_groups (total_pins : ℕ) (pins : List RPin) :
    List (List RPin) :=
  group_values (lodash_group_by (qfp_side_key total_pins) (position_sort pins))

/-- The pin list stored by `QfpRenderer.set_pins`: each group is zipped
with its slot assignment and tagged with its index in the group list as
`side`, then the per-side lists are flattened. -/
def qfp_set_pins_list (total_pins : ℕ) (mode : QfpMode)
    (pins : List RPin) : List QfpRPin :=
  ((qfp_side_groups total_pins pins).enum.map (fun sg =>
    ((position_pins_on_side mode total_pins sg.2).zip sg.2).map (fun pp =>
      { toRPin := pp.2, side := sg.1, position_on_side := pp.1 }))).flatten

/-- `QfpSide` enum values. -/
def QfpSide.LEFT : ℕ := 0

/-- `QfpSide.BOTTOM`. -/
def QfpSide.BOTTOM : ℕ := 1

/-- `QfpSide.RIGHT`. -/
def QfpSide.RIGHT : ℕ := 2

/-- `QfpSide.TOP`. -/
def QfpSide.TOP : ℕ := 3

/-- `_(pins).filter(pin => pin.side === side).map(pin => pin.position_on_side).max() ?? 0`:
the largest slot used on one side, `0` when the side is empty. -/
def side_max_slot (pins : List QfpRPin) (side : ℕ) : ℕ :=
  ((pins.filter (fun pin => pin.side == side)).map
    (fun pin => pin.position_on_side)).foldr max 0

/-- Qfp renderer state after `set_pins`. -/
structure QfpState where
  half_inner_width : ℚ
  half_inner_height : ℚ
  half_width : ℚ
  half_height : ℚ
  pins : List QfpRPin
deriving DecidableEq

/-- `QfpRenderer.calc_geometry`: in `ACCURATE` mode the bounding slot
index is `total_pins / 4 - 1` on both axes; otherwise it is the largest
slot used on the two sides of the axis (top/bottom for width,
left/right for height). -/
def qfp_calc_geometry (g : Geometry) (total_pins : ℕ) (mode : QfpMode)
    (pins : List QfpRPin) : QfpState :=
  let max_pin_index_h : ℚ :=
    if mode = .ACCURATE then ((total_pins / 4 : ℕ) : ℚ) - 1
    else (max (side_max_slot pins QfpSide.TOP) (side_max_slot pins QfpSide.BOTTOM) : ℕ)
  let max_pin_index_v : ℚ :=
    if mode = .ACCURATE then ((total_pins / 4 : ℕ) : ℚ) - 1
    else (max (side_max_slot pins QfpSide.LEFT) (side_max_slot pins QfpSide.RIGHT) : ℕ)
  let half_inner_width := max_pin_index_h * g.pin_spacing / 2
  let half_inner_height := max_pin_index_v * g.pin_spacing / 2
  { half_inner_width := half_inner_width
    half_inner_height := half_inner_height
    half_width := half_inner_width + g.margin_qfp * g.pin_spacing
    half_height := half_inner_height + g.margin_qfp * g.pin_spacing
    pins := pins }

/-- `QfpRenderer.set_pins` followed by its `calc_geometry` call. -/
def qfp_set_pins (g : Geometry) (total_pins : ℕ) (mode : QfpMode)
    (pins : List RPin) : QfpState :=
  qfp_calc_geometry g total_pins mode (qfp_set_pins_list total_pins mode pins)

/-- The per-side `origin` array of `QfpRenderer.get_position`. -/
def qfp_origin (side : ℕ) : ℚ × ℚ :=
  ([(-1, -1), (-1, 1), (1, 1), (1, -1)] : List (ℚ × ℚ)).getD side (0, 0)

/-- The per-side `direction` array of `QfpRenderer.get_position`. -/
def qfp_direction (side : ℕ) : ℚ × ℚ :=
  ([(0, 1), (1, 0), (0, -1), (-1, 0)] : List (ℚ × ℚ)).getD side (0, 0)

/-- The per-side direction character `'RULD'[side]`. -/
def qfp_dir_char (side : ℕ) : Direction :=
  ([Direction.R, Direction.U, Direction.L, Direction.D]).getD side .U

/-- One axis of the `QfpRenderer.get_position` coordinate formula. -/
def qfp_coord (g : Geometry) (half_inner origin_c direction_c : ℚ)
    (position_on_side : ℕ) : ℚ :=
  half_inner * origin_c + (position_on_side : ℚ) * direction_c * g.pin_spacing +
    (if direction_c = 0 then origin_c else 0) *
      (g.margin_qfp * g.pin_spacing + g.pin_length)

/-- `QfpRenderer.get_position`. -/
def qfp_get_position (g : Geometry) (st : QfpState) (pin : QfpRPin) :
    PinPosition :=
  let origin := qfp_origin pin.side
  let direction := qfp_direction pin.side
  { x := qfp_coord g st.half_inner_width origin.1 direction.1 pin.position_on_side
    y := qfp_coord g st.half_inner_height origin.2 direction.2 pin.position_on_side
    dir := qfp_dir_char pin.side }

/-- `QfpRenderer.render_block`. -/
def qfp_render_block (st : QfpState) (unit : ℕ) : List Line :=
  [.s_line st.half_width st.half_height unit]

/-- `QfpRenderer.render_pins`. -/
def qfp_render_pins (g : Geometry) (st : QfpState) (unit : ℕ) : List Line :=
  st.pins.map (fun pin =>
    let position := qfp_get_position g st pin
    Line.x_line pin.display_name pin.position position.x (-position.y)
      g.pin_length position.dir unit pin.elec_type)

/-- A full Qfp render pass. -/
def qfp_render (g : Geometry) (unit total_pins : ℕ) (mode : QfpMode)
    (pins : List RPin) : List Line :=
  let st := qfp_set_pins g total_pins mode pins
  qfp_render_block st unit ++ qfp_render_pins g st unit

/-- The `QfpRenderer` constructor check:
`if (total_pins % 4) throw new Error('Pin count must be multiple of 4')`. -/
def qfp_make (total_pins : ℕ) (mode : QfpMode) :
    Except String (ℕ × QfpMode) :=
  if total_pins % 4 ≠ 0 then .error "Pin count must be multiple of 4"
  else .ok (total_pins, mode)

/-- Renderer variants as constructed by the program (`SipRenderer`,
`DipRenderer`, `QfpRenderer` with its pin count and mode). -/
inductive RendererKind
  | sip (unit : ℕ)
  | dip (unit : ℕ)
  | qfp (unit : ℕ) (total_pins : ℕ) (mode : QfpMode)
deriving DecidableEq

/-- `Block.render`: `set_pins` on the block's pins, then `render_block`
and `render_pins` of the bound renderer. -/
def renderer_render (g : Geometry) (r : RendererKind) (pins : List RPin) :
    List Line :=
  match r with
  | .sip unit => sip_render g unit pins
  | .dip unit => dip_render g unit pins
  | .qfp unit total_pins mode => qfp_render g unit total_pins mode pins

/-- A `Block`: object identity is modelled by the `id` field (distinct
JS objects get distinct ids), plus the bound renderer. -/
structure Block where
  id : ℕ
  renderer : RendererKind
deriving DecidableEq

/-- The `Blocks` record passed to `render_symbol`. -/
structure Blocks where
  io_block : Block
  power_block : Block
  config_block : Block
  unassigned_block : Block
deriving DecidableEq

/-- Lookup of a block role in the `Blocks` record. -/
def blocks_get (blocks : Blocks) : BlockName → Block
  | .io_block => blocks.io_block
  | .power_block => blocks.power_block
  | .config_block => blocks.config_block
  | .unassigned_block => blocks.unassigned_block

/-- The `block_order` loop of `render_symbol`: the four blocks in the
fixed order IO, power, config, unassigned, de-duplicated by identity
(`indexOf === -1`). -/
def block_order (blocks : Blocks) : List Block :=
  [blocks.io_block, blocks.power_block, blocks.config_block,
   blocks.unassigned_block].foldl
    (fun acc block =>
      if acc.any (fun b => b.id = block.id) then acc else acc ++ [block])
    []

/-- The contribution of one incoming pin to one block: `some` exactly
when classification assigns the pin to a block whose identity is the
given block's (the `pin.block === this` filter of `Block.render`). -/
def pin_contribution (options : Options) (blocks : Blocks) (b : Block)
    (pin : Pin) : Option RPin :=
  match classify options pin with
  | some (et, bn) =>
    if (blocks_get blocks bn).id = b.id then some (to_rpin pin et) else none
  | none => none

/-- The pins a block renders, in incoming order (classification pushes
pins into each block in iteration order). -/
def block_pins (options : Options) (blocks : Blocks) (b : Block)
    (pins : List Pin) : List RPin :=
  pins.filterMap (pin_contribution options blocks b)

/-- `package.replace(/LQFP/, 'LQFP-')`: first occurrence only. -/
def lqfp_dash (s : String) : String :=
  match s.splitOn "LQFP" with
  | [] => s
  | [_] => s
  | a :: rest => a ++ "LQFP-" ++ String.intercalate "LQFP" rest

/-- `render_symbol`: classify every pin into its block, then emit the
header (whose declared unit count is the length of the de-duplicated
block order), the footprint filter, and each block's render output in
block order. -/
def render_symbol (options : Options) (cname cpackage : String)
    (pins : List Pin) (blocks : Blocks) : List Line :=
  let order := block_order blocks
  [Line.header,
   Line.def_line cname order.length,
   Line.f0_line,
   Line.f1_line cname,
   Line.fplist_begin,
   Line.fplist_entry (lqfp_dash cpackage),
   Line.fplist_end,
   Line.draw_line]
  ++ (order.map (fun b =>
        renderer_render options.geometry b.renderer
          (block_pins options blocks b pins))).flatten
  ++ [Line.enddraw_line, Line.enddef_line, Line.blank_line]

/-- The four blocks as the main program constructs them: four distinct
objects, IO with the style-selected renderer, power and config with Sip
renderers (units 2 and 3), unassigned with a Dip renderer (unit 4). -/
def mk_blocks (io_renderer : RendererKind) : Blocks :=
  { io_block := ⟨0, io_renderer⟩
    power_block := ⟨1, .sip 2⟩
    config_block := ⟨2, .sip 3⟩
    unassigned_block := ⟨3, .dip 4⟩ }

/-- `create_io_block`: a Sip renderer for style `sip`, otherwise a
`QfpRenderer` whose constructor validates the total pin count. -/
def create_io_block (options : Options) (total_pins : ℕ) :
    Except String RendererKind :=
  match options.io_style with
  | .sip => .ok (.sip 1)
  | .qfp mode =>
    (qfp_make total_pins mode).map (fun tm => RendererKind.qfp 1 tm.1 tm.2)

/-- The engine pipeline of the main program: construct the IO block's
renderer (which may fail), then assemble the symbol.  A failure yields
no output lines (the buffer is only written after success). -/
def run_engine (options : Options) (cname cpackage : String)
    (pins : List Pin) : Except String (List Line) :=
  (create_io_block options pins.length).map (fun io_renderer =>
    render_symbol options cname cpackage pins (mk_blocks io_renderer))

/-- Helper loop for `compact_slots_spec`: `slot` is the current slot
counter, `next` the `expected_next_position` counter; every pin
advances the counter by 1 if its position equals `next` and by 2
otherwise, records the advanced counter as its slot, and sets `next` to
its position + 1. -/
def compact_slots_spec_go (slot next : ℕ) : List RPin → List ℕ
  | [] => []
  | p :: ps =>
    let slot' := slot + (if p.position = next then 1 else 2)
    slot' :: compact_slots_spec_go slot' (p.position + 1) ps

/-- Slot assignment of `COMPACT` mode as amended: the slot counter
starts at `0`, `expected_next_position` is seeded at the first pin's
physical position (so the first pin always advances by 1 and receives
slot 1), and every pin — the first included — advances the counter
before it is recorded. -/
def compact_slots_spec (pins : List RPin) : List ℕ :=
  match pins with
  | [] => []
  | p0 :: _ => compact_slots_spec_go 0 p0.position pins

/-- `takeWhile` reading of "the name truncated at its first
whitespace" (used to compare against the regex-based `short_name`). -/
def take_until_ws (s : String) : String :=
  ⟨s.data.takeWhile (fun c => !is_js_space c)⟩

/-- `display_name` as the spec claims it: `short_name`, or
`short_name/label` when a label is present, whitespace replaced. -/
def claim_display_name (pin : Pin) : String :=
  underscore_ws
    (if label_truthy pin.label then short_name pin.name ++ "/" ++ pin.label.getD ""
     else short_name pin.name)

/-- `display_name` as amended: the full name when there is no (truthy)
label, `short_name/label` otherwise, whitespace replaced by
underscores. -/
def amended_display_name (pin : Pin) : String :=
  underscore_ws
    (if label_truthy pin.label then take_until_ws pin.name ++ "/" ++ pin.label.getD ""
     else pin.name)

/-- Test whether a line is an `S` rectangle line. -/
def is_s_line : Line → Bool
  | .s_line _ _ _ => true
  | _ => false

/-- Test whether a line is an `X` pin line. -/
def is_x_line : Line → Bool
  | .x_line _ _ _ _ _ _ _ _ => true
  | _ => false

/-- The unit number of an `S` rectangle line. -/
def s_line_unit : Line → Option ℕ
  | .s_line _ _ unit => some unit
  | _ => none

/-- The unit count declared by the `DEF` header line, if any. -/
def def_line_unit_count (lines : List Line) : Option ℕ :=
  lines.findSome? (fun line =>
    match line with
    | .def_line _ n => some n
    | _ => none)

/-- The `geometry` constant of the program's `options` literal. -/
def default_geometry : Geometry :=
  { pin_spacing := 100
    pin_length := 200
    margin_qfp := 8
    margin_ip := 1
    width_sip := 800
    width_dip := 1600 }

/-- The program's `options` literal (style defaults to `crushed`). -/
def default_options : Options :=
  { io_style := .qfp .CRUSHED
    separate_config := true
    separate_power := true
    separate_unassigned := true
    drop_unassigned := false
    geometry := default_geometry }

/-- A minimal classified pin at a given physical position, used as
concrete input for counterexamples and witnesses. -/
def cx_rpin (pos : ℕ) : RPin :=
  { position := pos
    name := "P"
    label := none
    display_name := "P"
    elec_type := .passive }

/-- One step of the fold of `COMPACT` slot assignment (named so the
equivalence with `compact_slots_spec_go` can be stated per step). -/
def compact_step (acc : List ℕ × ℕ) (pin : RPin) : List ℕ × ℕ :=
  (acc.1 ++ [acc.1.getLast?.getD 0 + (if pin.position = acc.2 then 1 else 2)],
   pin.position + 1)

theorem position_pins_on_side_compact_eq_fold (total_pins : ℕ)
    (p0 : RPin) (pins : List RPin) :
    position_pins_on_side .COMPACT total_pins (p0 :: pins) =
      ((p0 :: pins).foldl compact_step (([] : List ℕ), p0.position)).1 := rfl

theorem compact_fold_go (ps : List RPin) :
    ∀ (xs : List ℕ) (next : ℕ),
      (ps.foldl compact_step (xs, next)).1 =
        xs ++ compact_slots_spec_go (xs.getLast?.getD 0) next ps := by
  induction ps with
  | nil => intro xs next; simp [compact_slots_spec_go]
  | cons p ps ih =>
    intro xs next
    rw [List.foldl_cons]
    show (ps.foldl compact_step
      (xs ++ [xs.getLast?.getD 0 + (if p.position = next then 1 else 2)],
       p.position + 1)).1 = _
    rw [ih]
    rw [List.getLast?_concat]
    simp [compact_slots_spec_go]

/-- The `COMPACT` reduce of `position_pins_on_side` computes exactly
the `compact_slots_spec` recursion. -/
theorem compact_slots_eq_spec (total_pins : ℕ) (pins : List RPin) :
    position_pins_on_side .COMPACT total_pins pins = compact_slots_spec pins := by
  cases pins with
  | nil => rfl
  | cons p0 ps =>
    rw [position_pins_on_side_compact_eq_fold, compact_fold_go]
    rfl

/-- C1 counterexample: in compact mode the first pin of a side never
receives slot 0 — with side pins at physical positions 5, 6, 8 the
returned slot list is `[1, 2, 4]`, whose first entry is 1, not 0 as the
claim states. -/
theorem claim_C1_counterexample :
    position_pins_on_side .COMPACT 40 [cx_rpin 5, cx_rpin 6, cx_rpin 8] =
      [1, 2, 4] ∧
    (position_pins_on_side .COMPACT 40 [cx_rpin 5, cx_rpin 6, cx_rpin 8]).head? ≠
      some 0 := by
  constructor
  · rfl
  · decide

/-- C1 (amended): compact-mode slot assignment tracks an
`expected_next_position` counter seeded at the first pin's physical
position and a slot counter starting at 0; every pin — the first
included — advances the slot counter by 1 if its physical position
equals `expected_next_position` and by 2 otherwise, records the
advanced counter as its slot (so the first pin always gets slot 1), and
sets `expected_next_position` to its position + 1; the returned list is
exactly the recorded counter values. -/
theorem claim_C1 (total_pins : ℕ) (pins : List RPin) :
    position_pins_on_side .COMPACT total_pins pins = compact_slots_spec pins :=
  compact_slots_eq_spec total_pins pins

/-- C3: the classification chain of `render_symbol` is exactly
first-match evaluation of the spec's five prioritized rules (rule 5,
the drop, being the fall-through `none`), and a dropped pin contributes
no rendered pin to any block (hence no output line). -/
theorem claim_C3 :
    (∀ (options : Options) (pin : Pin),
      classify options pin = classify_by_rules options pin) ∧
    (∀ (options : Options) (blocks : Blocks) (b : Block) (pin : Pin),
      classify options pin = none →
      pin_contribution options blocks b pin = none) := by
  constructor
  · intro options pin
    obtain ⟨style, sc, sp, su, du, g⟩ := options
    obtain ⟨pos, name, ct, lbl, asg⟩ := pin
    cases ct <;> cases asg <;> cases sp <;> cases sc <;> cases su <;> cases du <;> rfl
  · intro options blocks b pin h
    simp [pin_contribution, h]

/-- A pin that matches no classification rule, for the C3 witness:
unassigned, `separate_unassigned` and `drop_unassigned` both on. -/
def cx_dropped_pin : Pin :=
  { position := 7, name := "PA7", config_type := .io, assigned := false }

/-- Options under which `cx_dropped_pin` reaches the drop branch. -/
def cx_drop_options : Options :=
  { default_options with
      drop_unassigned := true, separate_power := false, separate_config := false }

theorem claim_C3_witness :
    pin_contribution cx_drop_options (mk_blocks (.sip 1))
      (mk_blocks (.sip 1)).io_block cx_dropped_pin = none :=
  claim_C3.2 cx_drop_options (mk_blocks (.sip 1))
    (mk_blocks (.sip 1)).io_block cx_dropped_pin (by decide)

/-- C6 counterexample: a pin whose name contains whitespace and that
has no label gets the full underscored name, not the truncated
`short_name` the claim predicts. -/
def cx_ws_pin : Pin :=
  { position := 1, name := "A B", config_type := .io, assigned := true }

theorem claim_C6_counterexample :
    display_name cx_ws_pin = "A_B" ∧
    claim_display_name cx_ws_pin = "A" ∧
    display_name cx_ws_pin ≠ claim_display_name cx_ws_pin := by
  refine ⟨rfl, rfl, ?_⟩
  decide

theorem strip_ws_rest_eq_take_until (l : List Char)
    (h : ∀ c ∈ l, is_js_line_term c = false) :
    strip_ws_rest l = l.takeWhile (fun c => !is_js_space c) := by
  induction l with
  | nil => rfl
  | cons c cs ih =>
    by_cases hc : is_js_space c
    · rw [strip_ws_rest, if_pos hc]
      have h1 : List.dropWhile (fun d => !is_js_line_term d) cs = [] :=
        List.dropWhile_eq_nil_iff.2
          (fun x hx => by simp [h x (List.mem_cons_of_mem c hx)])
      have h2 : List.takeWhile (fun c => !is_js_space c) (c :: cs) = [] := by
        rw [List.takeWhile_cons]
        simp [hc]
      rw [h1, h2]
    · rw [strip_ws_rest, if_neg hc]
      rw [List.takeWhile_cons]
      simp only [hc, Bool.not_false, if_true]
      rw [ih (fun x hx => h x (List.mem_cons_of_mem c hx))]

/-- C6 (amended): classification sets `display_name` to the full pin
name when the pin has no (truthy) label, and to `short_name/label` when
it has one, whitespace replaced by underscores — where, for names free
of line-terminator characters, `short_name` is the name truncated at
its first whitespace. -/
theorem claim_C6 (pin : Pin)
    (h : ∀ c ∈ pin.name.data, is_js_line_term c = false) :
    display_name pin = amended_display_name pin := by
  unfold display_name amended_display_name
  cases ht : label_truthy pin.label with
  | false => simp [ht]
  | true =>
    simp only [ht, if_true]
    unfold short_name take_until_ws
    rw [strip_ws_rest_eq_take_until pin.name.data h]

/-- A labelled pin with a whitespace-bearing name, for the C6 witness. -/
def cx_labeled_pin : Pin :=
  { position := 2, name := "VDD X", config_type := .power,
    label := some "L1", assigned := true }

theorem claim_C6_witness :
    display_name cx_labeled_pin = amended_display_name cx_labeled_pin :=
  claim_C6 cx_labeled_pin (by decide)

/-- C7: the `QfpRenderer` constructor fails exactly when the total pin
count is not a multiple of 4, and when the quad-flat IO style is
selected with such a count the whole engine run fails before producing
any output lines. -/
theorem claim_C7 :
    (∀ (total_pins : ℕ) (mode : QfpMode),
      (∃ e, qfp_make total_pins mode = .error e) ↔ total_pins % 4 ≠ 0) ∧
    (∀ (options : Options) (cname cpackage : String) (pins : List Pin)
        (mode : QfpMode),
      options.io_style = .qfp mode → pins.length % 4 ≠ 0 →
      run_engine options cname cpackage pins =
        .error "Pin count must be multiple of 4") := by
  constructor
  · intro total_pins mode
    by_cases h : total_pins % 4 = 0 <;> simp [qfp_make, h]
  · intro options cname cpackage pins mode hstyle hlen
    simp [run_engine, create_io_block, hstyle, qfp_make, hlen, Except.map]

/-- Any 101 concrete input pins (the spec's example count). -/
def cx_pins_101 : List Pin :=
  (List.range 101).map (fun i =>
    { position := i + 1, name := "PA0", config_type := .io, assigned := true })

theorem claim_C7_witness :
    (∃ e, qfp_make 101 .CRUSHED = .error e) ∧
    run_engine default_options "MCU" "LQFP101" cx_pins_101 =
      .error "Pin count must be multiple of 4" :=
  ⟨(claim_C7.1 101 .CRUSHED).2 (by decide),
   claim_C7.2 default_options "MCU" "LQFP101" cx_pins_101 .CRUSHED rfl
     (by simp [cx_pins_101])⟩

/-- C9: in accurate mode every pin's slot is
`(physical_position - 1) mod (total_pins / 4)`, and the bounding
half-dimensions of `calc_geometry` are `(total_pins / 4 - 1)` slots on
both axes whatever pins are populated; at `total_pins = 40`, positions
21 and 30 receive slots 0 and 9. -/
theorem claim_C9 :
    (∀ (total_pins : ℕ) (pins : List RPin),
      position_pins_on_side .ACCURATE total_pins pins =
        pins.map (fun pin => (pin.position - 1) % (total_pins / 4))) ∧
    (∀ (g : Geometry) (total_pins : ℕ) (pins : List QfpRPin),
      (qfp_calc_geometry g total_pins .ACCURATE pins).half_inner_width =
        (((total_pins / 4 : ℕ) : ℚ) - 1) * g.pin_spacing / 2 ∧
      (qfp_calc_geometry g total_pins .ACCURATE pins).half_inner_height =
        (((total_pins / 4 : ℕ) : ℚ) - 1) * g.pin_spacing / 2) ∧
    position_pins_on_side .ACCURATE 40 [cx_rpin 21, cx_rpin 30] = [0, 9] := by
  refine ⟨fun total_pins pins => rfl, fun g total_pins pins => ⟨rfl, rfl⟩, ?_⟩
  rfl


theorem name_label_sort_length (pins : List RPin) :
    (name_label_sort pins).length = pins.length :=
  List.length_insertionSort pin_sort_le pins

theorem countP_map_of_true {α β : Type} (p : β → Bool) (f : α → β)
    (l : List α) (h : ∀ a, p (f a) = true) :
    (l.map f).countP p = l.length := by
  rw [List.countP_map, List.countP_eq_length]
  exact fun a _ => h a

theorem sip_render_pins_getElem (g : Geometry) (st : RowState) (unit : ℕ)
    (i : ℕ) (h : i < (sip_render_pins g st unit).length)
    (h2 : i < st.pins.length) :
    (sip_render_pins g st unit)[i] =
      Line.x_line st.pins[i].display_name st.pins[i].position
        (st.half_width + g.pin_length)
        (-(-st.half_inner_height + g.pin_spacing * i))
        g.pin_length Direction.L unit st.pins[i].elec_type := by
  simp only [sip_render_pins, sip_get_position]
  rw [List.getElem_map, List.getElem_enum]

theorem sip_render_pins_length (g : Geometry) (st : RowState) (unit : ℕ) :
    (sip_render_pins g st unit).length = st.pins.length := by
  simp [sip_render_pins, List.enum_length]

/-- C8: the single-row renderer emits exactly N pin lines; after the
name/label sort, pin `i` is emitted at `x = half_width + pin_length`
pointing leftward with internal `y = -half_inner_height + pin_spacing*i`,
so the internal y-coordinates form an arithmetic progression of common
difference `pin_spacing` whose minimum (for non-negative spacing) is
the first pin's `-((N-1)*pin_spacing/2)`. -/
theorem claim_C8 (g : Geometry) (unit : ℕ) (pins : List RPin)
    (hN : 1 ≤ pins.length) :
    (sip_render g unit pins).countP is_x_line = pins.length ∧
    (∀ (i : ℕ) (hr : i < (sip_render_pins g (sip_set_pins g pins) unit).length)
        (hs : i < (name_label_sort pins).length),
      (sip_render_pins g (sip_set_pins g pins) unit)[i] =
        Line.x_line (name_label_sort pins)[i].display_name
          (name_label_sort pins)[i].position
          (g.width_sip / 2 + g.pin_length)
          (-(-(((pins.length : ℚ) - 1) * g.pin_spacing / 2) + g.pin_spacing * i))
          g.pin_length Direction.L unit (name_label_sort pins)[i].elec_type) ∧
    (∀ i : ℕ,
      (sip_get_position g (sip_set_pins g pins) (i + 1)).y -
        (sip_get_position g (sip_set_pins g pins) i).y = g.pin_spacing) ∧
    (0 ≤ g.pin_spacing → ∀ i : ℕ,
      (sip_get_position g (sip_set_pins g pins) 0).y ≤
        (sip_get_position g (sip_set_pins g pins) i).y) ∧
    (sip_get_position g (sip_set_pins g pins) 0).y =
      -(((pins.length : ℚ) - 1) * g.pin_spacing / 2) := by
  have hlen : (name_label_sort pins).length = pins.length :=
    name_label_sort_length pins
  have hpins : (sip_set_pins g pins).pins = name_label_sort pins := rfl
  have hhw : (sip_set_pins g pins).half_width = g.width_sip / 2 := rfl
  have hhi : (sip_set_pins g pins).half_inner_height =
      (((pins.length : ℚ)) - 1) * g.pin_spacing / 2 := by
    show (((name_label_sort pins).length : ℚ) - 1) * g.pin_spacing / 2 = _
    rw [hlen]
  refine ⟨?_, ?_, ?_, ?_, ?_⟩
  · rw [sip_render, List.countP_append]
    have h0 : (row_render_block (sip_set_pins g pins) unit).countP is_x_line = 0 := rfl
    rw [h0, sip_render_pins, countP_map_of_true _ _ _ (fun a => rfl)]
    rw [List.enum_length, hpins, hlen, Nat.zero_add]
  · intro i hr hs
    have hs2 : i < (sip_set_pins g pins).pins.length := by
      rw [hpins]; exact hs
    rw [sip_render_pins_getElem g (sip_set_pins g pins) unit i hr hs2]
    rw [hhw, hhi]
    rfl
  · intro i
    simp only [sip_get_position]
    push_cast
    ring
  · intro hsp i
    simp only [sip_get_position]
    have h1 : (0 : ℚ) ≤ g.pin_spacing * i :=
      mul_nonneg hsp (Nat.cast_nonneg i)
    push_cast
    linarith
  · simp only [sip_get_position, hhi]
    push_cast
    ring

theorem claim_C8_witness :
    (sip_render default_geometry 1 [cx_rpin 1, cx_rpin 2, cx_rpin 3]).countP
      is_x_line = 3 := by
  have h :=
    (claim_C8 default_geometry 1 [cx_rpin 1, cx_rpin 2, cx_rpin 3] (by decide)).1
  simpa using h

theorem floor_div_half_eq_zero {i len : ℕ} (hl : 0 < len) (h : 2 * i < len) :
    ⌊(i : ℚ) / ((len : ℚ) / 2)⌋ = 0 := by
  have hl2 : (0 : ℚ) < (len : ℚ) / 2 := by
    have : (0 : ℚ) < (len : ℚ) := by exact_mod_cast hl
    linarith
  rw [Int.floor_eq_zero_iff]
  constructor
  · exact div_nonneg (Nat.cast_nonneg i) (le_of_lt hl2)
  · rw [div_lt_one hl2]
    have : (2 : ℚ) * i < (len : ℚ) := by exact_mod_cast h
    linarith

theorem floor_div_half_eq_one {i len : ℕ} (h1 : len ≤ 2 * i) (h2 : i < len) :
    ⌊(i : ℚ) / ((len : ℚ) / 2)⌋ = 1 := by
  have hl : 0 < len := lt_of_le_of_lt (Nat.zero_le i) h2
  have hl2 : (0 : ℚ) < (len : ℚ) / 2 := by
    have : (0 : ℚ) < (len : ℚ) := by exact_mod_cast hl
    linarith
  rw [Int.floor_eq_iff]
  constructor
  · rw [Int.cast_one, le_div_iff hl2]
    have : (len : ℚ) ≤ 2 * i := by exact_mod_cast h1
    linarith
  · rw [div_lt_iff hl2]
    have : (i : ℚ) < (len : ℚ) := by exact_mod_cast h2
    push_cast
    linarith

/-- Side placement of the Dip renderer, shared by the C4 theorems:
side 0 (`2*i < count`) goes to the left edge with direction `R`, side 1
to the right edge with direction `L`, both with the Sip y-formula over
the side-local index. -/
theorem dip_sides_spec :
    (∀ (g : Geometry) (pins : List RPin) (i : ℕ), 2 * i < pins.length →
      (dip_get_position g (dip_set_pins g pins) i).x =
        -1 * (g.width_dip / 2 + g.pin_length) ∧
      (dip_get_position g (dip_set_pins g pins) i).dir = Direction.R ∧
      (dip_get_position g (dip_set_pins g pins) i).y =
        -((((⌈(pins.length : ℚ) / 2⌉ : ℤ) : ℚ) - 1) * g.pin_spacing / 2) +
          g.pin_spacing * i) ∧
    (∀ (g : Geometry) (pins : List RPin) (i : ℕ),
      pins.length ≤ 2 * i → i < pins.length →
      (dip_get_position g (dip_set_pins g pins) i).x =
        1 * (g.width_dip / 2 + g.pin_length) ∧
      (dip_get_position g (dip_set_pins g pins) i).dir = Direction.L ∧
      (dip_get_position g (dip_set_pins g pins) i).y =
        -((((⌈(pins.length : ℚ) / 2⌉ : ℤ) : ℚ) - 1) * g.pin_spacing / 2) +
          g.pin_spacing * ((i : ℚ) - (pins.length : ℚ) / 2)) := by
  constructor
  · intro g pins i h
    have hl : 0 < pins.length := lt_of_le_of_lt (Nat.zero_le _) h
    have hlen : ((dip_set_pins g pins).pins.length : ℚ) = (pins.length : ℚ) := by
      show ((name_label_sort pins).length : ℚ) = _
      rw [name_label_sort_length]
    have hfloor : ⌊(i : ℚ) / (((dip_set_pins g pins).pins.length : ℚ) / 2)⌋ = 0 := by
      rw [hlen]; exact floor_div_half_eq_zero hl h
    have hdiv : (0 : ℚ) ≤ (i : ℚ) / (((dip_set_pins g pins).pins.length : ℚ) / 2) := by
      rw [hlen]
      have : (0 : ℚ) ≤ (pins.length : ℚ) := Nat.cast_nonneg _
      positivity
    refine ⟨?_, ?_, ?_⟩
    · show ([(-1 : ℚ), 1].getD (⌊(i : ℚ) / (((dip_set_pins g pins).pins.length : ℚ) / 2)⌋).toNat 0) *
        ((dip_set_pins g pins).half_width + g.pin_length) = _
      rw [hfloor]
      show (-1 : ℚ) * (g.width_dip / 2 + g.pin_length) = _
      ring
    · show ([Direction.R, Direction.L].getD
        (⌊(i : ℚ) / (((dip_set_pins g pins).pins.length : ℚ) / 2)⌋).toNat .U) = _
      rw [hfloor]
      rfl
    · show -(dip_set_pins g pins).half_inner_height +
        g.pin_spacing * js_mod (i : ℚ) (((dip_set_pins g pins).pins.length : ℚ) / 2) = _
      have hmod : js_mod (i : ℚ) (((dip_set_pins g pins).pins.length : ℚ) / 2) = (i : ℚ) := by
        rw [js_mod, js_trunc, if_pos hdiv, hfloor]
        push_cast
        ring
      rw [hmod]
      show -((((⌈((name_label_sort pins).length : ℚ) / 2⌉ : ℤ) : ℚ) - 1) * g.pin_spacing / 2) + _ = _
      rw [name_label_sort_length]
  · intro g pins i h1 h2
    have hlen : ((dip_set_pins g pins).pins.length : ℚ) = (pins.length : ℚ) := by
      show ((name_label_sort pins).length : ℚ) = _
      rw [name_label_sort_length]
    have hfloor : ⌊(i : ℚ) / (((dip_set_pins g pins).pins.length : ℚ) / 2)⌋ = 1 := by
      rw [hlen]; exact floor_div_half_eq_one h1 h2
    have hdiv : (0 : ℚ) ≤ (i : ℚ) / (((dip_set_pins g pins).pins.length : ℚ) / 2) := by
      rw [hlen]
      have : (0 : ℚ) ≤ (pins.length : ℚ) := Nat.cast_nonneg _
      positivity
    refine ⟨?_, ?_, ?_⟩
    · show ([(-1 : ℚ), 1].getD (⌊(i : ℚ) / (((dip_set_pins g pins).pins.length : ℚ) / 2)⌋).toNat 0) *
        ((dip_set_pins g pins).half_width + g.pin_length) = _
      rw [hfloor]
      show (1 : ℚ) * (g.width_dip / 2 + g.pin_length) = _
      ring
    · show ([Direction.R, Direction.L].getD
        (⌊(i : ℚ) / (((dip_set_pins g pins).pins.length : ℚ) / 2)⌋).toNat .U) = _
      rw [hfloor]
      rfl
    · show -(dip_set_pins g pins).half_inner_height +
        g.pin_spacing * js_mod (i : ℚ) (((dip_set_pins g pins).pins.length : ℚ) / 2) = _
      have hmod : js_mod (i : ℚ) (((dip_set_pins g pins).pins.length : ℚ) / 2) =
          (i : ℚ) - (pins.length : ℚ) / 2 := by
        rw [js_mod, js_trunc, if_pos hdiv, hfloor, hlen]
        push_cast
        ring
      rw [hmod]
      show -((((⌈((name_label_sort pins).length : ℚ) / 2⌉ : ℤ) : ℚ) - 1) * g.pin_spacing / 2) + _ = _
      rw [name_label_sort_length]

/-- C4 counterexample: with the program's geometry and four pins, pin
index 0 (side 0) is placed at `x = -1000`, i.e. on the left edge at
`-(half_width + pin_length)`, not on the right edge `+1000` as the
claim states. -/
theorem claim_C4_counterexample :
    (dip_get_position default_geometry
      (dip_set_pins default_geometry
        [cx_rpin 1, cx_rpin 2, cx_rpin 3, cx_rpin 4]) 0).x = -1000 ∧
    (default_geometry.width_dip / 2 + default_geometry.pin_length) = 1000 ∧
    (-1000 : ℚ) ≠ 1000 := by
  have h := (dip_sides_spec.1 default_geometry
    [cx_rpin 1, cx_rpin 2, cx_rpin 3, cx_rpin 4] 0 (by decide)).1
  refine ⟨?_, by norm_num [default_geometry], by norm_num⟩
  rw [h]
  norm_num [default_geometry]

/-- C4 (amended): after the name/label sort, pin index `i` is on side
`floor(i / (count/2))` with side-local index `i mod (count/2)`; side 0
is placed on the LEFT edge with direction code `R` (stub pointing
rightward into the body) and side 1 on the RIGHT edge with direction
code `L`, each sequenced bottom-to-top by side-local index with
`y = -half_inner_height + pin_spacing * side_local_index`. -/
theorem claim_C4 :
    (∀ (g : Geometry) (pins : List RPin) (i : ℕ), 2 * i < pins.length →
      (dip_get_position g (dip_set_pins g pins) i).x =
        -1 * (g.width_dip / 2 + g.pin_length) ∧
      (dip_get_position g (dip_set_pins g pins) i).dir = Direction.R ∧
      (dip_get_position g (dip_set_pins g pins) i).y =
        -((((⌈(pins.length : ℚ) / 2⌉ : ℤ) : ℚ) - 1) * g.pin_spacing / 2) +
          g.pin_spacing * i) ∧
    (∀ (g : Geometry) (pins : List RPin) (i : ℕ),
      pins.length ≤ 2 * i → i < pins.length →
      (dip_get_position g (dip_set_pins g pins) i).x =
        1 * (g.width_dip / 2 + g.pin_length) ∧
      (dip_get_position g (dip_set_pins g pins) i).dir = Direction.L ∧
      (dip_get_position g (dip_set_pins g pins) i).y =
        -((((⌈(pins.length : ℚ) / 2⌉ : ℤ) : ℚ) - 1) * g.pin_spacing / 2) +
          g.pin_spacing * ((i : ℚ) - (pins.length : ℚ) / 2)) :=
  dip_sides_spec

theorem claim_C4_witness :
    ((dip_get_position default_geometry
        (dip_set_pins default_geometry
          [cx_rpin 1, cx_rpin 2, cx_rpin 3, cx_rpin 4]) 0).dir = Direction.R) ∧
    ((dip_get_position default_geometry
        (dip_set_pins default_geometry
          [cx_rpin 1, cx_rpin 2, cx_rpin 3, cx_rpin 4]) 2).dir = Direction.L) :=
  ⟨(claim_C4.1 default_geometry [cx_rpin 1, cx_rpin 2, cx_rpin 3, cx_rpin 4] 0
      (by decide)).2.1,
   (claim_C4.2 default_geometry [cx_rpin 1, cx_rpin 2, cx_rpin 3, cx_rpin 4] 2
      (by decide) (by decide)).2.1⟩

theorem countP_map_of_false {α β : Type} (p : β → Bool) (f : α → β)
    (l : List α) (h : ∀ a, p (f a) = false) :
    (l.map f).countP p = 0 := by
  rw [List.countP_map, List.countP_eq_zero]
  intro a _
  simp [Function.comp, h a]

theorem filterMap_map_none {α β γ : Type} (f : α → β) (g : β → Option γ)
    (l : List α) (h : ∀ a, g (f a) = none) :
    (l.map f).filterMap g = [] := by
  rw [List.filterMap_map, List.filterMap_eq_nil_iff]
  intro a _
  simp [Function.comp, h a]

/-- The unit number a renderer was constructed with. -/
def renderer_unit : RendererKind → ℕ
  | .sip unit => unit
  | .dip unit => unit
  | .qfp unit _ _ => unit

theorem renderer_render_s_count (g : Geometry) (r : RendererKind)
    (pins : List RPin) :
    (renderer_render g r pins).countP is_s_line = 1 := by
  cases r with
  | sip unit =>
    rw [renderer_render, sip_render, List.countP_append, sip_render_pins,
      countP_map_of_false _ _ _ (fun a => rfl)]
    rfl
  | dip unit =>
    rw [renderer_render, dip_render, List.countP_append, dip_render_pins,
      countP_map_of_false _ _ _ (fun a => rfl)]
    rfl
  | qfp unit total_pins mode =>
    rw [renderer_render, qfp_render, List.countP_append, qfp_render_pins,
      countP_map_of_false _ _ _ (fun a => rfl)]
    rfl

theorem renderer_render_s_units (g : Geometry) (r : RendererKind)
    (pins : List RPin) :
    (renderer_render g r pins).filterMap s_line_unit = [renderer_unit r] := by
  cases r with
  | sip unit =>
    rw [renderer_render, sip_render, List.filterMap_append, sip_render_pins,
      filterMap_map_none _ _ _ (fun a => rfl)]
    rfl
  | dip unit =>
    rw [renderer_render, dip_render, List.filterMap_append, dip_render_pins,
      filterMap_map_none _ _ _ (fun a => rfl)]
    rfl
  | qfp unit total_pins mode =>
    rw [renderer_render, qfp_render, List.filterMap_append, qfp_render_pins,
      filterMap_map_none _ _ _ (fun a => rfl)]
    rfl

/-- C5 counterexample: with no pins at all, every block is empty, yet
four `S` rectangle lines are emitted (one per block) and the `DEF`
header declares 4 units — blocks are rendered and counted whether or
not they contain a classified pin. -/
theorem claim_C5_counterexample :
    (render_symbol default_options "N" "P" [] (mk_blocks (.sip 1))).countP
      is_s_line = 4 ∧
    (render_symbol default_options "N" "P" [] (mk_blocks (.sip 1))).countP
      is_x_line = 0 ∧
    def_line_unit_count
      (render_symbol default_options "N" "P" [] (mk_blocks (.sip 1))) =
      some 4 := ⟨rfl, rfl, rfl⟩

/-- C5 (amended): `render_symbol` renders every distinct block instance
(de-duplicated by identity), empty or not, in the fixed order IO,
power, config, unassigned; with the four distinct blocks the program
constructs, the declared unit count is always 4 and the four `S` lines
carry units 1 (the IO renderer's unit), 2, 3, 4 in that order,
regardless of which blocks received pins. -/
theorem claim_C5 :
    (∀ io_renderer : RendererKind,
      block_order (mk_blocks io_renderer) =
        [(mk_blocks io_renderer).io_block, (mk_blocks io_renderer).power_block,
         (mk_blocks io_renderer).config_block,
         (mk_blocks io_renderer).unassigned_block]) ∧
    (∀ (options : Options) (cname cpackage : String) (pins : List Pin)
        (io_renderer : RendererKind),
      def_line_unit_count
        (render_symbol options cname cpackage pins (mk_blocks io_renderer)) =
        some 4) ∧
    (∀ (options : Options) (cname cpackage : String) (pins : List Pin)
        (io_renderer : RendererKind),
      (render_symbol options cname cpackage pins
        (mk_blocks io_renderer)).countP is_s_line = 4) ∧
    (∀ (options : Options) (cname cpackage : String) (pins : List Pin)
        (io_renderer : RendererKind),
      (render_symbol options cname cpackage pins
        (mk_blocks io_renderer)).filterMap s_line_unit =
        [renderer_unit io_renderer, 2, 3, 4]) ∧
    (∀ (options : Options) (total_pins : ℕ) (r : RendererKind),
      create_io_block options total_pins = .ok r → renderer_unit r = 1) := by
  have horder : ∀ io_renderer : RendererKind,
      block_order (mk_blocks io_renderer) =
        [(mk_blocks io_renderer).io_block, (mk_blocks io_renderer).power_block,
         (mk_blocks io_renderer).config_block,
         (mk_blocks io_renderer).unassigned_block] := fun _ => rfl
  refine ⟨horder, fun options cname cpackage pins io_renderer => rfl, ?_, ?_, ?_⟩
  · intro options cname cpackage pins io_renderer
    rw [render_symbol]
    simp only [List.countP_append, horder, List.map_cons, List.map_nil,
      List.flatten, List.append_nil]
    rw [renderer_render_s_count, renderer_render_s_count,
      renderer_render_s_count, renderer_render_s_count]
    rfl
  · intro options cname cpackage pins io_renderer
    rw [render_symbol]
    simp only [List.filterMap_append, horder, List.map_cons, List.map_nil,
      List.flatten, List.append_nil]
    rw [renderer_render_s_units, renderer_render_s_units,
      renderer_render_s_units, renderer_render_s_units]
    rfl
  · intro options total_pins r h
    cases hs : options.io_style with
    | sip =>
      rw [create_io_block, hs] at h
      cases h
      rfl
    | qfp mode =>
      rw [create_io_block, hs] at h
      by_cases ht : total_pins % 4 = 0
      · simp only [qfp_make, ht, ne_eq, not_true_eq_false, if_false,
          Except.map] at h
        cases h
        rfl
      · simp [qfp_make, ht, Except.map] at h

theorem claim_C5_witness :
    renderer_unit (RendererKind.sip 1) = 1 :=
  claim_C5.2.2.2.2
    { default_options with io_style := .sip } 0 (RendererKind.sip 1) rfl

theorem mod_in_range {a side q : ℕ} (h1 : side * q ≤ a)
    (h2 : a < (side + 1) * q) : a % q = a - side * q := by
  have hsq : (side + 1) * q = side * q + q := by ring
  rw [hsq] at h2
  obtain ⟨r, hr, ha⟩ : ∃ r, r < q ∧ a = side * q + r :=
    ⟨a - side * q, by omega, by omega⟩
  subst ha
  have h3 : side * q + r = r + q * side := by ring
  rw [h3, Nat.add_mul_mod_self_left, Nat.mod_eq_of_lt hr]
  omega

theorem accurate_chain (q side : ℕ) :
    ∀ pins : List RPin,
      (∀ p ∈ pins, side * q + 1 ≤ p.position ∧ p.position ≤ (side + 1) * q) →
      (pins.map (fun p => p.position)).Chain' (· < ·) →
      List.Chain' (· < ·) (pins.map (fun p => (p.position - 1) % q)) := by
  intro pins
  induction pins with
  | nil => intro _ _; exact List.chain'_nil
  | cons p ps ih =>
    intro hrange hchain
    cases ps with
    | nil => exact List.chain'_singleton _
    | cons p2 rest =>
      rw [List.map_cons, List.map_cons, List.chain'_cons]
      rw [List.map_cons, List.map_cons, List.chain'_cons] at hchain
      have h1 := hrange p (List.mem_cons_self _ _)
      have h2 := hrange p2 (List.mem_cons_of_mem _ (List.mem_cons_self _ _))
      have hsq : (side + 1) * q = side * q + q := by ring
      constructor
      · rw [@mod_in_range _ side _ (by omega) (by omega),
          @mod_in_range _ side _ (by omega) (by omega)]
        omega
      · exact ih (fun x hx => hrange x (List.mem_cons_of_mem _ hx)) hchain.2

theorem compact_go_chain (ps : List RPin) :
    ∀ slot next : ℕ,
      List.Chain' (· < ·) (compact_slots_spec_go slot next ps) ∧
      (∀ x ∈ (compact_slots_spec_go slot next ps).head?, slot < x) := by
  induction ps with
  | nil => intro slot next; exact ⟨List.chain'_nil, by simp [compact_slots_spec_go]⟩
  | cons p ps ih =>
    intro slot next
    rw [compact_slots_spec_go]
    refine ⟨?_, ?_⟩
    · rw [List.chain'_cons']
      exact ⟨(ih _ _).2, (ih _ _).1⟩
    · intro x hx
      simp only [List.head?_cons, Option.mem_def, Option.some.injEq] at hx
      subst hx
      by_cases h : p.position = next <;> simp [h]

theorem compact_chain (pins : List RPin) :
    List.Chain' (· < ·) (compact_slots_spec pins) := by
  cases pins with
  | nil => exact List.chain'_nil
  | cons p0 ps => exact (compact_go_chain _ _ _).1

theorem crushed_chain (pins : List RPin) :
    List.Chain' (· < ·) (pins.enum.map (fun ip => ip.1)) := by
  have h : pins.enum.map (fun ip => ip.1) = List.range pins.length :=
    List.enum_map_fst pins
  rw [h]
  exact (List.pairwise_lt_range _).chain'

theorem slot_coord_ne (h o d sp K : ℚ) (hd : d ≠ 0) (hsp : sp ≠ 0)
    {s1 s2 : ℕ} (hs : s1 ≠ s2) :
    h * o + (s1 : ℚ) * d * sp + (if d = 0 then o else 0) * K ≠
      h * o + (s2 : ℚ) * d * sp + (if d = 0 then o else 0) * K := by
  rw [if_neg hd]
  intro heq
  apply hs
  have h2 : (s1 : ℚ) * (d * sp) = (s2 : ℚ) * (d * sp) := by ring_nf at heq ⊢; linarith
  have h3 := mul_right_cancel₀ (mul_ne_zero hd hsp) h2
  exact_mod_cast h3

/-- C10: in every layout mode, a side pin list with strictly increasing
physical positions inside the side's range (as `set_pins` produces)
receives a strictly increasing slot list — so no two pins of a side
share a slot — and two pins of one (valid) side with different slots
get different emitted coordinates whenever the pin spacing is
non-zero. -/
theorem claim_C10 :
    (∀ (mode : QfpMode) (total_pins side : ℕ) (pins : List RPin),
      (∀ p ∈ pins, side * (total_pins / 4) + 1 ≤ p.position ∧
        p.position ≤ (side + 1) * (total_pins / 4)) →
      (pins.map (fun p => p.position)).Chain' (· < ·) →
      (position_pins_on_side mode total_pins pins).Chain' (· < ·)) ∧
    (∀ (g : Geometry) (st : QfpState) (p1 p2 : QfpRPin),
      p1.side = p2.side → p1.side < 4 →
      p1.position_on_side ≠ p2.position_on_side → g.pin_spacing ≠ 0 →
      (qfp_get_position g st p1).x ≠ (qfp_get_position g st p2).x ∨
      (qfp_get_position g st p1).y ≠ (qfp_get_position g st p2).y) := by
  constructor
  · intro mode total_pins side pins hrange hchain
    cases mode with
    | ACCURATE => exact accurate_chain (total_pins / 4) side pins hrange hchain
    | COMPACT =>
      rw [compact_slots_eq_spec]
      exact compact_chain pins
    | CRUSHED => exact crushed_chain pins
  · intro g st p1 p2 hside h4 hslot hsp
    obtain ⟨rp1, s1, slot1⟩ := p1
    obtain ⟨rp2, s2, slot2⟩ := p2
    simp only at hside h4 hslot
    subst hside
    interval_cases s1
    · refine Or.inr ?_
      show qfp_coord g st.half_inner_height (qfp_origin 0).2 (qfp_direction 0).2 slot1 ≠
        qfp_coord g st.half_inner_height (qfp_origin 0).2 (qfp_direction 0).2 slot2
      rw [qfp_coord, qfp_coord]
      exact slot_coord_ne _ _ _ _ _ (by norm_num [qfp_direction]) hsp hslot
    · refine Or.inl ?_
      show qfp_coord g st.half_inner_width (qfp_origin 1).1 (qfp_direction 1).1 slot1 ≠
        qfp_coord g st.half_inner_width (qfp_origin 1).1 (qfp_direction 1).1 slot2
      rw [qfp_coord, qfp_coord]
      exact slot_coord_ne _ _ _ _ _ (by norm_num [qfp_direction]) hsp hslot
    · refine Or.inr ?_
      show qfp_coord g st.half_inner_height (qfp_origin 2).2 (qfp_direction 2).2 slot1 ≠
        qfp_coord g st.half_inner_height (qfp_origin 2).2 (qfp_direction 2).2 slot2
      rw [qfp_coord, qfp_coord]
      exact slot_coord_ne _ _ _ _ _ (by norm_num [qfp_direction]) hsp hslot
    · refine Or.inl ?_
      show qfp_coord g st.half_inner_width (qfp_origin 3).1 (qfp_direction 3).1 slot1 ≠
        qfp_coord g st.half_inner_width (qfp_origin 3).1 (qfp_direction 3).1 slot2
      rw [qfp_coord, qfp_coord]
      exact slot_coord_ne _ _ _ _ _ (by norm_num [qfp_direction]) hsp hslot

theorem claim_C10_witness :
    (position_pins_on_side .ACCURATE 40
      [cx_rpin 21, cx_rpin 25, cx_rpin 30]).Chain' (· < ·) ∧
    ((qfp_get_position default_geometry
        (qfp_set_pins default_geometry 40 .ACCURATE [cx_rpin 21])
        { toRPin := cx_rpin 21, side := 2, position_on_side := 0 }).x ≠
      (qfp_get_position default_geometry
        (qfp_set_pins default_geometry 40 .ACCURATE [cx_rpin 21])
        { toRPin := cx_rpin 30, side := 2, position_on_side := 9 }).x ∨
     (qfp_get_position default_geometry
        (qfp_set_pins default_geometry 40 .ACCURATE [cx_rpin 21])
        { toRPin := cx_rpin 21, side := 2, position_on_side := 0 }).y ≠
      (qfp_get_position default_geometry
        (qfp_set_pins default_geometry 40 .ACCURATE [cx_rpin 21])
        { toRPin := cx_rpin 30, side := 2, position_on_side := 9 }).y) :=
  ⟨claim_C10.1 .ACCURATE 40 2 [cx_rpin 21, cx_rpin 25, cx_rpin 30]
      (by decide)
      (by simp [List.chain'_cons, List.chain'_singleton, cx_rpin]),
   claim_C10.2 default_geometry
      (qfp_set_pins default_geometry 40 .ACCURATE [cx_rpin 21])
      { toRPin := cx_rpin 21, side := 2, position_on_side := 0 }
      { toRPin := cx_rpin 30, side := 2, position_on_side := 9 }
      rfl (by norm_num) (by norm_num) (by norm_num [default_geometry])⟩

/-- First-match association lookup in a group list (reads the same
entry `group_insert` updates). -/
def groups_lookup (k : ℕ) : List (ℕ × List RPin) → List RPin
  | [] => []
  | (k2, g) :: rest => if k2 = k then g else groups_lookup k rest

theorem group_insert_lookup_same (key : ℕ) (p : RPin)
    (acc : List (ℕ × List RPin)) :
    groups_lookup key (group_insert key p acc) =
      groups_lookup key acc ++ [p] := by
  induction acc with
  | nil => simp [group_insert, groups_lookup]
  | cons kg rest ih =>
    obtain ⟨k, g⟩ := kg
    by_cases h : k = key
    · subst h
      simp [group_insert, groups_lookup]
    · rw [group_insert, if_neg h, groups_lookup, if_neg h, groups_lookup,
        if_neg h, ih]

theorem group_insert_lookup_ne (key : ℕ) (p : RPin)
    (acc : List (ℕ × List RPin)) (k : ℕ) (h : k ≠ key) :
    groups_lookup k (group_insert key p acc) = groups_lookup k acc := by
  have hk : ¬ key = k := fun he => h he.symm
  induction acc with
  | nil =>
    rw [group_insert]
    show (if key = k then [p] else groups_lookup k []) = _
    rw [if_neg hk]
  | cons kg rest ih =>
    obtain ⟨k2, g⟩ := kg
    by_cases h2 : k2 = key
    · subst h2
      rw [group_insert, if_pos rfl]
      show (if k2 = k then g ++ [p] else groups_lookup k rest) =
        (if k2 = k then g else groups_lookup k rest)
      rw [if_neg hk, if_neg hk]
    · rw [group_insert, if_neg h2]
      show (if k2 = k then g else groups_lookup k (group_insert key p rest)) =
        (if k2 = k then g else groups_lookup k rest)
      by_cases h3 : k2 = k
      · rw [if_pos h3, if_pos h3]
      · rw [if_neg h3, if_neg h3, ih]

theorem group_insert_keys (key : ℕ) (p : RPin)
    (acc : List (ℕ × List RPin)) :
    (group_insert key p acc).map Prod.fst =
      if key ∈ acc.map Prod.fst then acc.map Prod.fst
      else acc.map Prod.fst ++ [key] := by
  induction acc with
  | nil => simp [group_insert]
  | cons kg rest ih =>
    obtain ⟨k, g⟩ := kg
    by_cases h : k = key
    · subst h
      simp [group_insert]
    · rw [group_insert, if_neg h]
      simp only [List.map_cons, List.mem_cons]
      rw [ih]
      have hk : ¬ key = k := fun he => h he.symm
      by_cases h2 : key ∈ rest.map Prod.fst
      · simp [h2, hk]
      · simp [h2, hk]

/-- The accumulation step of `lodash_group_by`, named for lemmas. -/
def lgb_step (key : RPin → ℕ) (acc : List (ℕ × List RPin)) (p : RPin) :
    List (ℕ × List RPin) :=
  group_insert (key p) p acc

theorem lodash_group_by_eq_foldl (key : RPin → ℕ) (l : List RPin) :
    lodash_group_by key l = l.foldl (lgb_step key) [] := rfl

theorem lgb_lookup_aux (key : RPin → ℕ) (l : List RPin) :
    ∀ (acc : List (ℕ × List RPin)) (k : ℕ),
      groups_lookup k (l.foldl (lgb_step key) acc) =
        groups_lookup k acc ++ l.filter (fun p => key p == k) := by
  induction l with
  | nil => intro acc k; simp
  | cons p ps ih =>
    intro acc k
    rw [List.foldl_cons, ih]
    by_cases h : key p = k
    · rw [List.filter_cons_of_pos (by simp [h])]
      show groups_lookup k (group_insert (key p) p acc) ++ _ = _
      rw [h, group_insert_lookup_same]
      simp
    · rw [List.filter_cons_of_neg (by simp [h])]
      show groups_lookup k (group_insert (key p) p acc) ++ _ = _
      rw [group_insert_lookup_ne _ _ _ _ (fun he => h he.symm)]

theorem lodash_group_by_lookup (key : RPin → ℕ) (l : List RPin) (k : ℕ) :
    groups_lookup k (lodash_group_by key l) =
      l.filter (fun p => key p == k) := by
  rw [lodash_group_by_eq_foldl, lgb_lookup_aux]
  rfl

theorem lgb_keys_nodup_aux (key : RPin → ℕ) (l : List RPin) :
    ∀ acc : List (ℕ × List RPin),
      (acc.map Prod.fst).Nodup → ((l.foldl (lgb_step key) acc).map Prod.fst).Nodup := by
  induction l with
  | nil => intro acc h; exact h
  | cons p ps ih =>
    intro acc h
    rw [List.foldl_cons]
    apply ih
    show ((group_insert (key p) p acc).map Prod.fst).Nodup
    rw [group_insert_keys]
    by_cases h2 : key p ∈ acc.map Prod.fst
    · rw [if_pos h2]; exact h
    · rw [if_neg h2]
      simp [List.nodup_append, h, h2]

theorem lodash_group_by_keys_nodup (key : RPin → ℕ) (l : List RPin) :
    ((lodash_group_by key l).map Prod.fst).Nodup :=
  lgb_keys_nodup_aux key l [] (by simp)

theorem lgb_keys_mono (key : RPin → ℕ) (l : List RPin) :
    ∀ (acc : List (ℕ × List RPin)) (k : ℕ),
      k ∈ acc.map Prod.fst → k ∈ (l.foldl (lgb_step key) acc).map Prod.fst := by
  induction l with
  | nil => intro acc k h; exact h
  | cons p ps ih =>
    intro acc k h
    rw [List.foldl_cons]
    apply ih
    show k ∈ (group_insert (key p) p acc).map Prod.fst
    rw [group_insert_keys]
    by_cases h2 : key p ∈ acc.map Prod.fst
    · rw [if_pos h2]; exact h
    · rw [if_neg h2]; exact List.mem_append_left _ h

theorem lgb_keys_cover (key : RPin → ℕ) (l : List RPin) :
    ∀ (acc : List (ℕ × List RPin)) (p : RPin), p ∈ l →
      key p ∈ (l.foldl (lgb_step key) acc).map Prod.fst := by
  induction l with
  | nil => intro acc p h; cases h
  | cons q ps ih =>
    intro acc p h
    rw [List.foldl_cons]
    rcases List.mem_cons.1 h with h1 | h1
    · subst h1
      apply lgb_keys_mono
      show key p ∈ (group_insert (key p) p acc).map Prod.fst
      rw [group_insert_keys]
      by_cases h2 : key p ∈ acc.map Prod.fst
      · rw [if_pos h2]; exact h2
      · rw [if_neg h2]; simp
    · exact ih _ p h1

theorem lgb_nonempty_aux (key : RPin → ℕ) (l : List RPin) :
    ∀ acc : List (ℕ × List RPin),
      (∀ kg ∈ acc, kg.2 ≠ []) →
      ∀ kg ∈ l.foldl (lgb_step key) acc, kg.2 ≠ [] := by
  induction l with
  | nil => intro acc h; exact h
  | cons p ps ih =>
    intro acc h
    rw [List.foldl_cons]
    apply ih
    show ∀ kg ∈ group_insert (key p) p acc, kg.2 ≠ []
    clear ih
    induction acc with
    | nil =>
      intro kg hkg
      rw [group_insert] at hkg
      rcases List.mem_cons.1 hkg with h1 | h1
      · subst h1; simp
      · cases h1
    | cons kg2 rest ih2 =>
      obtain ⟨k2, g2⟩ := kg2
      intro kg hkg
      rw [group_insert] at hkg
      by_cases h2 : k2 = key p
      · rw [if_pos h2] at hkg
        rcases List.mem_cons.1 hkg with h1 | h1
        · subst h1; simp
        · exact h kg (List.mem_cons_of_mem _ h1)
      · rw [if_neg h2] at hkg
        rcases List.mem_cons.1 hkg with h1 | h1
        · subst h1; exact h _ (List.mem_cons_self _ _)
        · exact ih2 (fun x hx => h x (List.mem_cons_of_mem _ hx)) kg h1

theorem mem_groups_eq_lookup :
    ∀ acc : List (ℕ × List RPin), (acc.map Prod.fst).Nodup →
      ∀ kg ∈ acc, kg.2 = groups_lookup kg.1 acc := by
  intro acc
  induction acc with
  | nil => intro _ kg h; cases h
  | cons kg2 rest ih =>
    obtain ⟨k2, g2⟩ := kg2
    intro hnodup kg hkg
    have hnodup2 : (rest.map Prod.fst).Nodup := by
      simp only [List.map_cons, List.nodup_cons] at hnodup
      exact hnodup.2
    have hk2 : k2 ∉ rest.map Prod.fst := by
      simp only [List.map_cons, List.nodup_cons] at hnodup
      exact hnodup.1
    rcases List.mem_cons.1 hkg with h1 | h1
    · subst h1
      show g2 = if k2 = k2 then g2 else _
      rw [if_pos rfl]
    · show kg.2 = if k2 = kg.1 then g2 else groups_lookup kg.1 rest
      have hne : k2 ≠ kg.1 := by
        intro he
        apply hk2
        rw [he]
        exact List.mem_map_of_mem Prod.fst h1
      rw [if_neg hne]
      exact ih hnodup2 kg h1

/-- The key-sort step of `group_values`, named for lemmas. -/
def sorted_groups (groups : List (ℕ × List RPin)) : List (ℕ × List RPin) :=
  List.insertionSort (fun a b => a.1 ≤ b.1) groups

theorem group_values_eq_sorted (groups : List (ℕ × List RPin)) :
    group_values groups = (sorted_groups groups).map (fun kg => kg.2) := rfl

instance : IsTotal (ℕ × List RPin) (fun a b => a.1 ≤ b.1) :=
  ⟨fun a b => Nat.le_total a.1 b.1⟩

instance : IsTrans (ℕ × List RPin) (fun a b => a.1 ≤ b.1) :=
  ⟨fun _ _ _ hab hbc => Nat.le_trans hab hbc⟩

instance : IsTotal RPin pos_sort_le :=
  ⟨fun a b => Nat.le_total a.position b.position⟩

instance : IsTrans RPin pos_sort_le :=
  ⟨fun _ _ _ hab hbc => Nat.le_trans hab hbc⟩

/-- The grouped sides of `QfpRenderer.set_pins` with their keys. -/
def qfp_groups (total_pins : ℕ) (pins : List RPin) :
    List (ℕ × List RPin) :=
  sorted_groups (lodash_group_by (qfp_side_key total_pins) (position_sort pins))

/-- The populated side keys, in the order `.values()` enumerates the
groups. -/
def qfp_side_keys (total_pins : ℕ) (pins : List RPin) : List ℕ :=
  (qfp_groups total_pins pins).map Prod.fst

theorem qfp_side_groups_eq (total_pins : ℕ) (pins : List RPin) :
    qfp_side_groups total_pins pins =
      (qfp_groups total_pins pins).map (fun kg => kg.2) := rfl

theorem qfp_groups_perm (total_pins : ℕ) (pins : List RPin) :
    (qfp_groups total_pins pins).Perm
      (lodash_group_by (qfp_side_key total_pins) (position_sort pins)) :=
  List.perm_insertionSort _ _

theorem qfp_side_keys_nodup (total_pins : ℕ) (pins : List RPin) :
    (qfp_side_keys total_pins pins).Nodup :=
  (((qfp_groups_perm total_pins pins).map Prod.fst).nodup_iff).2
    (lodash_group_by_keys_nodup _ _)

theorem qfp_side_keys_sorted (total_pins : ℕ) (pins : List RPin) :
    (qfp_side_keys total_pins pins).Sorted (· < ·) := by
  have hle : (qfp_groups total_pins pins).Sorted (fun a b => a.1 ≤ b.1) :=
    List.sorted_insertionSort _ _
  have hle2 : (qfp_side_keys total_pins pins).Sorted (· ≤ ·) :=
    List.pairwise_map.2 hle
  have hne : (qfp_side_keys total_pins pins).Pairwise (· ≠ ·) :=
    qfp_side_keys_nodup total_pins pins
  exact (hle2.and hne).imp (fun h => lt_of_le_of_ne h.1 h.2)

theorem qfp_groups_group_eq_filter (total_pins : ℕ) (pins : List RPin) :
    ∀ kg ∈ qfp_groups total_pins pins,
      kg.2 = (position_sort pins).filter
        (fun p => qfp_side_key total_pins p == kg.1) := by
  intro kg hkg
  have hmem : kg ∈ lodash_group_by (qfp_side_key total_pins) (position_sort pins) :=
    (qfp_groups_perm total_pins pins).mem_iff.1 hkg
  rw [mem_groups_eq_lookup _ (lodash_group_by_keys_nodup _ _) kg hmem,
    lodash_group_by_lookup]

theorem position_sort_perm (pins : List RPin) :
    (position_sort pins).Perm pins :=
  List.perm_insertionSort _ _

theorem position_sort_sorted (pins : List RPin) :
    (position_sort pins).Sorted pos_sort_le :=
  List.sorted_insertionSort _ _

theorem qfp_side_keys_cover (total_pins : ℕ) (pins : List RPin) (k : ℕ) :
    k ∈ qfp_side_keys total_pins pins ↔
      ∃ p ∈ pins, qfp_side_key total_pins p = k := by
  constructor
  · intro h
    have h2 : k ∈ (lodash_group_by (qfp_side_key total_pins)
        (position_sort pins)).map Prod.fst :=
      ((qfp_groups_perm total_pins pins).map Prod.fst).mem_iff.1 h
    obtain ⟨kg, hkg, hfst⟩ := List.mem_map.1 h2
    have hg := mem_groups_eq_lookup _ (lodash_group_by_keys_nodup _ _) kg hkg
    rw [lodash_group_by_lookup] at hg
    have hne : kg.2 ≠ [] :=
      lgb_nonempty_aux _ _ [] (by intro x hx; cases hx) kg hkg
    obtain ⟨p, hp⟩ := List.exists_mem_of_ne_nil _ hne
    rw [hg] at hp
    obtain ⟨hp1, hp2⟩ := List.mem_filter.1 hp
    refine ⟨p, (position_sort_perm pins).mem_iff.1 hp1, ?_⟩
    rw [hfst] at hp2
    exact Nat.beq_eq ▸ (by simpa using hp2)
  · intro ⟨p, hp, hkey⟩
    have h2 : qfp_side_key total_pins p ∈
        (lodash_group_by (qfp_side_key total_pins)
          (position_sort pins)).map Prod.fst := by
      rw [lodash_group_by_eq_foldl]
      exact lgb_keys_cover _ _ [] p ((position_sort_perm pins).mem_iff.2 hp)
    rw [hkey] at h2
    exact ((qfp_groups_perm total_pins pins).map Prod.fst).mem_iff.2 h2

theorem compact_slots_spec_go_length (ps : List RPin) :
    ∀ slot next : ℕ, (compact_slots_spec_go slot next ps).length = ps.length := by
  induction ps with
  | nil => intro slot next; rfl
  | cons p ps ih =>
    intro slot next
    rw [compact_slots_spec_go]
    simp [ih]

theorem position_pins_on_side_length (mode : QfpMode) (total_pins : ℕ)
    (pins : List RPin) :
    (position_pins_on_side mode total_pins pins).length = pins.length := by
  cases mode with
  | ACCURATE => exact List.length_map _ _
  | COMPACT =>
    rw [compact_slots_eq_spec]
    cases pins with
    | nil => rfl
    | cons p ps =>
      rw [compact_slots_spec]
      exact compact_slots_spec_go_length _ _ _
  | CRUSHED => simp [position_pins_on_side, List.enum_length]

/-- C2 counterexample: with `total_pins = 8` and only physical side 1
populated (positions 3 and 4), `set_pins` records side 0 for both pins
(the group index among populated sides), while the claimed formula
`floor((position-1)/(total_pins/4))` gives side 1. -/
theorem claim_C2_counterexample :
    (qfp_set_pins_list 8 .ACCURATE [cx_rpin 3, cx_rpin 4]).map
      (fun qp => qp.side) = [0, 0] ∧
    (qfp_set_pins_list 8 .ACCURATE [cx_rpin 3, cx_rpin 4]).map
      (fun qp => (qp.position - 1) / (8 / 4)) = [1, 1] ∧
    ([0, 0] : List ℕ) ≠ [1, 1] := by
  refine ⟨by decide, by decide, by decide⟩

/-- C2 (amended): the side recorded by `set_pins` is the 0-based rank
of the pin's true side value `floor((position-1)/(total_pins/4))`
among the populated side values listed in ascending order (so it equals
the formula itself exactly when the populated sides form a downward-
closed set); the populated side-key list is strictly sorted and
contains exactly the keys of the input pins; and within one recorded
side, pins are processed in ascending physical position. -/
theorem claim_C2 :
    (∀ (total_pins : ℕ) (mode : QfpMode) (pins : List RPin),
      ∀ qp ∈ qfp_set_pins_list total_pins mode pins,
        qp.side = (qfp_side_keys total_pins pins).indexOf
          ((qp.position - 1) / (total_pins / 4))) ∧
    (∀ (total_pins : ℕ) (pins : List RPin),
      (qfp_side_keys total_pins pins).Sorted (· < ·)) ∧
    (∀ (total_pins : ℕ) (pins : List RPin) (k : ℕ),
      k ∈ qfp_side_keys total_pins pins ↔
        ∃ p ∈ pins, (p.position - 1) / (total_pins / 4) = k) ∧
    (∀ (total_pins : ℕ) (mode : QfpMode) (pins : List RPin),
      (qfp_set_pins_list total_pins mode pins).Pairwise
        (fun a b => a.side = b.side → a.position ≤ b.position)) := by
  refine ⟨?_, qfp_side_keys_sorted, qfp_side_keys_cover, ?_⟩
  · intro total_pins mode pins qp hqp
    rw [qfp_set_pins_list] at hqp
    obtain ⟨li, hli, hin⟩ := List.mem_flatten.1 hqp
    obtain ⟨⟨i, grp⟩, hsg, rfl⟩ := List.mem_map.1 hli
    obtain ⟨hi, hgrp⟩ := List.mem_enum hsg
    obtain ⟨⟨slot, p⟩, hz, rfl⟩ := List.mem_map.1 hin
    have hp : p ∈ grp := (List.of_mem_zip hz).2
    have hi2 : i < (qfp_groups total_pins pins).length := by
      rw [qfp_side_groups_eq, List.length_map] at hi
      exact hi
    have hgrp2 : grp = (qfp_groups total_pins pins)[i].2 := by
      rw [hgrp, List.getElem_of_eq (qfp_side_groups_eq total_pins pins) hi]
      exact List.getElem_map _
    have hkg : (qfp_groups total_pins pins)[i] ∈ qfp_groups total_pins pins :=
      List.getElem_mem _
    have hfilter := qfp_groups_group_eq_filter total_pins pins _ hkg
    have hkey : qfp_side_key total_pins p = (qfp_groups total_pins pins)[i].1 := by
      rw [hgrp2, hfilter] at hp
      have := (List.mem_filter.1 hp).2
      simpa using this
    have hik : i < (qfp_side_keys total_pins pins).length := by
      unfold qfp_side_keys
      rw [List.length_map]
      exact hi2
    have hik2 : i < ((qfp_groups total_pins pins).map Prod.fst).length := by
      rw [List.length_map]
      exact hi2
    have hkeyi : (qfp_side_keys total_pins pins)[i] =
        (qfp_groups total_pins pins)[i].1 := by
      show ((qfp_groups total_pins pins).map Prod.fst)[i] = _
      exact List.getElem_map _
    have hidx := List.indexOf_getElem (qfp_side_keys_nodup total_pins pins) i hik
    show i = (qfp_side_keys total_pins pins).indexOf (qfp_side_key total_pins p)
    rw [hkey, ← hkeyi, hidx]
  · intro total_pins mode pins
    rw [qfp_set_pins_list, List.pairwise_flatten]
    constructor
    · intro li hli
      obtain ⟨⟨i, grp⟩, hsg, rfl⟩ := List.mem_map.1 hli
      obtain ⟨hi, hgrp⟩ := List.mem_enum hsg
      have hi2 : i < (qfp_groups total_pins pins).length := by
        rw [qfp_side_groups_eq, List.length_map] at hi
        exact hi
      have hgrp2 : grp = (qfp_groups total_pins pins)[i].2 := by
        rw [hgrp, List.getElem_of_eq (qfp_side_groups_eq total_pins pins) hi]
        exact List.getElem_map _
      have hkg : (qfp_groups total_pins pins)[i] ∈ qfp_groups total_pins pins :=
        List.getElem_mem _
      have hsorted : grp.Pairwise pos_sort_le := by
        rw [hgrp2, qfp_groups_group_eq_filter total_pins pins _ hkg]
        exact (position_sort_sorted pins).filter _
      have hlen : grp.length ≤ (position_pins_on_side mode total_pins grp).length :=
        le_of_eq (position_pins_on_side_length mode total_pins grp).symm
      have hmz : ((position_pins_on_side mode total_pins grp).zip grp).map
          Prod.snd = grp := List.map_snd_zip _ _ hlen
      rw [← hmz] at hsorted
      have hzip : (((position_pins_on_side mode total_pins grp).zip grp)).Pairwise
          (fun pp qq => pos_sort_le pp.2 qq.2) := List.pairwise_map.1 hsorted
      refine List.pairwise_map.2 (List.Pairwise.imp ?_ hzip)
      intro a b h _
      exact h
    · have henum : ((qfp_side_groups total_pins pins).enum).Pairwise
          (fun a b => a.1 < b.1) := by
        have h := List.pairwise_lt_range (qfp_side_groups total_pins pins).length
        rw [← List.enum_map_fst (qfp_side_groups total_pins pins)] at h
        exact List.pairwise_map.1 h
      refine List.pairwise_map.2 (henum.imp ?_)
      intro sg1 sg2 hlt a ha b hb heq
      obtain ⟨pp, _, rfl⟩ := List.mem_map.1 ha
      obtain ⟨qq, _, rfl⟩ := List.mem_map.1 hb
      exact absurd heq (Nat.ne_of_lt hlt)

theorem claim_C2_witness :
    ({ toRPin := cx_rpin 3, side := 0, position_on_side := 0 } :
        QfpRPin).side =
      (qfp_side_keys 8 [cx_rpin 3, cx_rpin 4]).indexOf
        ((({ toRPin := cx_rpin 3, side := 0, position_on_side := 0 } :
          QfpRPin).position - 1) / (8 / 4)) :=
  claim_C2.1 8 .ACCURATE [cx_rpin 3, cx_rpin 4]
    { toRPin := cx_rpin 3, side := 0, position_on_side := 0 } (by decide)
